import Mathlib

/-!
Verification of the GBL vehicle-fault analysis core.

This file gives a shallow embedding of the fault-classification engine and
the statistics/query helpers of the repository
(`src/VehicleFaults.py`, `src/PandasChat.py`, `src/QueryPreProcessor.py`)
and proves the specification claims about them.

Modelling conventions:
- Python strings are Lean `String`s; `None`/NaN cells are `Option` values.
- Python floats are modelled as exact rationals `ℚ` (the arithmetic in the
  source is short chains of `+ * / min`, so no float-specific behaviour is
  relevant to the claims except where noted).
- Python dicts preserving insertion order are association `List`s.
- The taxonomy `fault_categories.yaml` is a parameter (it is absent from the
  repository tree); its schema follows `categorize_faults`' reads.
-/

namespace GBL

/-- `startsWithL n h` : the char list `n` is an initial segment of `h`
(used to model Python's substring operator). -/
def startsWithL : List Char → List Char → Bool
  | [], _ => true
  | _ :: _, [] => false
  | a :: as, b :: bs => a = b && startsWithL as bs

/-- `containsL n h` models Python's `n in h` on strings: `n` occurs as a
contiguous substring of `h` (the empty string is contained in everything). -/
def containsL (needle : List Char) : List Char → Bool
  | [] => startsWithL needle []
  | c :: rest => startsWithL needle (c :: rest) || containsL needle rest

/-- Python `needle in hay` for strings. -/
def containsStr (needle hay : String) : Bool :=
  containsL needle.data hay.data

/-! ## Taxonomy data model

Schema of `fault_categories.yaml` as read by `VehicleFault._categorize_faults`:
an ordered mapping main category → keywords + ordered subcategory mapping.
A missing `keywords`/`subcategories` key is modelled by the empty list, which
makes the `if 'keywords' in details` guards of the source iterate over
nothing, exactly as the source does. -/

structure SubCat where
  name : String
  keywords : List String
deriving DecidableEq

structure Category where
  name : String
  keywords : List String
  subcategories : List SubCat
deriving DecidableEq

/-- Ordered list of main categories: dict insertion order = load order. -/
abbrev Taxonomy := List Category

/-- Python `str.lower()` (ASCII case folding, which covers every string the
source compares; defined on the char list so that it evaluates by kernel
reduction). -/
def lowerStr (s : String) : String :=
  String.mk (s.data.map Char.toLower)

/-- Number of keywords of `keywords` that occur as substrings of `text`
(the source increments `score` and `keyword_matches` together, once per
matching keyword, so a single count models both variables). -/
def countMatches (keywords : List String) (text : String) : Nat :=
  (keywords.filter (fun k => containsStr (lowerStr k) text)).length

/-- Running best subcategory of one category: `best_sub` / `sub_score` of the
source (`sub_keyword_matches` always equals `sub_score` there, both being
incremented once per matching keyword, so one field models both). -/
structure SubBest where
  best_sub : Option String
  sub_score : Nat
deriving DecidableEq

/-- One iteration of the subcategory loop: strict improvement updates. -/
def stepSub (text : String) (st : SubBest) (sc : SubCat) : SubBest :=
  let cur := countMatches sc.keywords text
  if st.sub_score < cur then ⟨some sc.name, cur⟩ else st

/-- The subcategory loop of `_categorize_faults`. -/
def bestSubOf (subs : List SubCat) (text : String) : SubBest :=
  subs.foldl (stepSub text) ⟨none, 0⟩

/-- `total_keywords`: main keywords plus all subcategory keywords. -/
def totalKeywords (c : Category) : Nat :=
  c.keywords.length + (c.subcategories.map (fun s => s.keywords.length)).sum

/-- `current_match_density = (keyword_matches + sub_keyword_matches) / max(1, total_keywords)`
(the `max` is taken on integers in the source, then the division is float). -/
def matchDensityOf (c : Category) (text : String) : ℚ :=
  ((countMatches c.keywords text : ℚ) + ((bestSubOf c.subcategories text).sub_score : ℚ))
    / ((max 1 (totalKeywords c) : ℕ) : ℚ)

/-- `total_score = score + sub_score * 0.5 + current_match_density * 2`. -/
def catScore (c : Category) (text : String) : ℚ :=
  (countMatches c.keywords text : ℚ)
    + ((bestSubOf c.subcategories text).sub_score : ℚ) * (1 / 2)
    + matchDensityOf c text * 2

/-- The mutable loop state of `_categorize_faults`:
`best_match`, `best_subcategory`, `highest_score`, `match_density`.
Note `match_density` is assigned only inside the winner-update branch. -/
structure BestState where
  best_match : Option String
  best_subcategory : Option String
  highest_score : ℚ
  match_density : ℚ
deriving DecidableEq

def initState : BestState := ⟨none, none, 0, 0⟩

/-- The state a category writes when it becomes the running winner. -/
def mkWinState (c : Category) (text : String) : BestState :=
  ⟨some c.name, (bestSubOf c.subcategories text).best_sub, catScore c text, matchDensityOf c text⟩

/-- One iteration of the main category loop: `if total_score > highest_score`. -/
def stepCat (text : String) (st : BestState) (c : Category) : BestState :=
  if st.highest_score < catScore c text then mkWinState c text else st

/-- The category loop of `_categorize_faults` over taxonomy load order. -/
def scanCats (tax : Taxonomy) (text : String) : BestState :=
  tax.foldl (stepCat text) initState

/-- `VehicleFault._categorize_faults(fault_description)`.
`none` models a non-string input (`not isinstance(..., str)`); the empty
string is the other falsy early return. Returns
`(main_category, subcategory, confidence)`. -/
def categorize_faults_text (tax : Taxonomy) (desc : Option String) :
    String × Option String × ℚ :=
  match desc with
  | none => ("Uncategorized", none, 0)
  | some s =>
    if s = "" then ("Uncategorized", none, 0)
    else
      let text := (lowerStr s)
      let st := scanCats tax text
      match st.best_match with
      | none => ("Uncategorized", none, 0)
      | some m =>
        (m, st.best_subcategory, min (st.highest_score / 4 + st.match_density * (1 / 2)) 1)

/-- `WinnerAt tax text i h` : category `i` is the one the scoring loop ends
on — its score is positive, strictly above every earlier category's score
(a strict improvement was required to displace the running best, so ties
keep the earlier category) and at least every later category's score. -/
def WinnerAt (tax : Taxonomy) (text : String) (i : Nat) (h : i < tax.length) : Prop :=
  0 < catScore tax[i] text ∧
  (∀ j (hj : j < tax.length), j < i → catScore tax[j] text < catScore tax[i] text) ∧
  (∀ j (hj : j < tax.length), i ≤ j → catScore tax[j] text ≤ catScore tax[i] text)

/-- Evaluation helper: `matchDensityOf` from the three integer quantities. -/
theorem matchDensityOf_eq (c : Category) (text : String) (a b k : ℕ)
    (ha : countMatches c.keywords text = a)
    (hb : (bestSubOf c.subcategories text).sub_score = b)
    (hk : max 1 (totalKeywords c) = k) :
    matchDensityOf c text = ((a : ℚ) + (b : ℚ)) / (k : ℚ) := by
  unfold matchDensityOf
  rw [ha, hb, hk]

/-- Evaluation helper: `catScore` from the three integer quantities. -/
theorem catScore_eq (c : Category) (text : String) (a b k : ℕ)
    (ha : countMatches c.keywords text = a)
    (hb : (bestSubOf c.subcategories text).sub_score = b)
    (hk : max 1 (totalKeywords c) = k) :
    catScore c text
      = (a : ℚ) + (b : ℚ) * (1 / 2) + ((a : ℚ) + (b : ℚ)) / (k : ℚ) * 2 := by
  unfold catScore matchDensityOf
  rw [ha, hb, hk]

theorem scan_spec (text : String) (tax : Taxonomy) :
    (scanCats tax text = initState ∧ ∀ c ∈ tax, catScore c text ≤ 0) ∨
    (∃ i, ∃ h : i < tax.length,
      scanCats tax text = mkWinState tax[i] text ∧ WinnerAt tax text i h) := by
  induction tax using List.reverseRecOn with
  | nil =>
    left
    exact ⟨rfl, by simp⟩
  | append_singleton pre c ih =>
    have hstep : scanCats (pre ++ [c]) text = stepCat text (scanCats pre text) c := by
      simp [scanCats, List.foldl_append]
    rcases ih with ⟨heq, hle⟩ | ⟨i, h, heq, hpos, hbefore, hafter⟩
    · rw [heq] at hstep
      by_cases hc : (0 : ℚ) < catScore c text
      · right
        refine ⟨pre.length, by simp, ?_, ?_, ?_, ?_⟩
        · rw [hstep]
          simp [stepCat, initState, hc]
        · simpa using hc
        · intro j hj hji
          have hjp : j < pre.length := by simpa using hji
          have hmem : pre[j] ∈ pre := List.getElem_mem hjp
          have h1 : catScore pre[j] text ≤ 0 := hle _ hmem
          rw [List.getElem_append_left hjp]
          simp only [List.getElem_concat_length pre c pre.length rfl (by simp)]
          exact lt_of_le_of_lt h1 hc
        · intro j hj hij
          have hj' : j = pre.length := by
            have := List.length_append pre [c] ▸ hj
            simp at this
            omega
          subst hj'
          simp
      · left
        constructor
        · rw [hstep]
          simp [stepCat, initState, hc]
        · intro c' hc'
          rcases List.mem_append.mp hc' with hmem | hmem
          · exact hle _ hmem
          · have : c' = c := by simpa using hmem
            subst this
            exact not_lt.mp hc
    · rw [heq] at hstep
      by_cases hc : catScore pre[i] text < catScore c text
      · right
        refine ⟨pre.length, by simp, ?_, ?_, ?_, ?_⟩
        · rw [hstep]
          simp only [stepCat, mkWinState, hc, if_pos]
          simp [List.getElem_concat_length pre c pre.length rfl (by simp)]
        · simp only [List.getElem_concat_length pre c pre.length rfl (by simp)]
          exact lt_trans hpos hc
        · intro j hj hji
          have hjp : j < pre.length := by simpa using hji
          rw [List.getElem_append_left hjp]
          simp only [List.getElem_concat_length pre c pre.length rfl (by simp)]
          rcases lt_or_ge j i with hlt | hge
          · exact lt_trans (hbefore j hjp hlt) hc
          · exact lt_of_le_of_lt (hafter j hjp hge) hc
        · intro j hj hij
          have hj' : j = pre.length := by
            have := List.length_append pre [c] ▸ hj
            simp at this
            omega
          subst hj'
          simp
      · right
        have hip : i < pre.length := h
        have hlen2 : i < (pre ++ [c]).length := by simp; omega
        have hgetl : (pre ++ [c])[i] = pre[i] := List.getElem_append_left hip
        refine ⟨i, by simp; omega, ?_, ?_, ?_, ?_⟩
        · rw [hstep]
          simp [stepCat, mkWinState, hc, hgetl]
        · rw [hgetl]; exact hpos
        · intro j hj hji
          have hjp : j < pre.length := lt_trans hji hip
          rw [List.getElem_append_left hjp, hgetl]
          exact hbefore j hjp hji
        · intro j hj hij
          rw [hgetl]
          by_cases hjp : j < pre.length
          · rw [List.getElem_append_left hjp]
            exact hafter j hjp hij
          · have hj' : j = pre.length := by
              have := List.length_append pre [c] ▸ hj
              simp at this
              omega
            subst hj'
            rw [List.getElem_concat_length pre c pre.length rfl (by simp)]
            exact not_lt.mp hc

theorem winner_unique {tax : Taxonomy} {text : String} {i i' : Nat}
    (h : i < tax.length) (h' : i' < tax.length)
    (hw : WinnerAt tax text i h) (hw' : WinnerAt tax text i' h') : i = i' := by
  rcases hw with ⟨_, hb, ha⟩
  rcases hw' with ⟨_, hb', ha'⟩
  rcases lt_trichotomy i i' with hlt | heq | hgt
  · exact absurd (hb' i h hlt) (not_lt.mpr (ha i' h' (le_of_lt hlt)))
  · exact heq
  · exact absurd (hb i' h' hgt) (not_lt.mpr (ha' i h (le_of_lt hgt)))

theorem scan_eq_of_winner {tax : Taxonomy} {text : String} {i : Nat}
    (h : i < tax.length) (hwin : WinnerAt tax text i h) :
    scanCats tax text = mkWinState tax[i] text := by
  rcases scan_spec text tax with ⟨_, hle⟩ | ⟨i', h', heq, hwin'⟩
  · exact absurd (hle tax[i] (List.getElem_mem h)) (not_le.mpr hwin.1)
  · have : i' = i := winner_unique h' h hwin' hwin
    subst this
    exact heq

theorem matchDensityOf_nonneg (c : Category) (text : String) :
    0 ≤ matchDensityOf c text := by
  unfold matchDensityOf
  apply div_nonneg
  · positivity
  · positivity

/-- C1: for every taxonomy and non-empty input text, the classifier returns
the earliest category in load order whose score
`main_score + 0.5*sub_score + 2*match_density` is strictly above every
earlier category's score and at least every later one's (so an equal later
score never displaces an earlier winner), and if no category scores above 0
the result is `("Uncategorized", none, 0)`. -/
theorem categorize_winner_earliest_strict_max (tax : Taxonomy) (text : String)
    (htext : text ≠ "") :
    ((∀ c ∈ tax, catScore c (lowerStr text) ≤ 0) →
      categorize_faults_text tax (some text) = ("Uncategorized", none, 0)) ∧
    (∀ i (h : i < tax.length), WinnerAt tax (lowerStr text) i h →
      (categorize_faults_text tax (some text)).1 = tax[i].name) := by
  constructor
  · intro hle
    have hscan : scanCats tax (lowerStr text) = initState := by
      rcases scan_spec (lowerStr text) tax with ⟨heq, _⟩ | ⟨i, h, _, hwin⟩
      · exact heq
      · exact absurd (hle tax[i] (List.getElem_mem h)) (not_le.mpr hwin.1)
    simp [categorize_faults_text, htext, hscan, initState]
  · intro i h hwin
    have hscan := scan_eq_of_winner h hwin
    simp [categorize_faults_text, htext, hscan, mkWinState]

/-- Witness for C1 at a concrete taxonomy and text: in a two-category
taxonomy, "Brake noise" matches only the second category, which wins. -/
theorem categorize_winner_earliest_strict_max_witness :
    (categorize_faults_text
      [⟨"Engine", ["engine"], []⟩, ⟨"Brakes", ["brake"], []⟩]
      (some "Brake noise")).1 = "Brakes" := by
  have h0 : catScore (⟨"Engine", ["engine"], []⟩ : Category) (lowerStr "Brake noise") = 0 := by
    rw [catScore_eq _ _ 0 0 1 (by decide) (by decide) (by decide)]
    norm_num
  have h1 : catScore (⟨"Brakes", ["brake"], []⟩ : Category) (lowerStr "Brake noise") = 3 := by
    rw [catScore_eq _ _ 1 0 1 (by decide) (by decide) (by decide)]
    norm_num
  have hwin : WinnerAt [⟨"Engine", ["engine"], []⟩, ⟨"Brakes", ["brake"], []⟩]
      (lowerStr "Brake noise") 1 (by decide) := by
    refine ⟨?_, ?_, ?_⟩
    · show (0 : ℚ) < catScore ⟨"Brakes", ["brake"], []⟩ (lowerStr "Brake noise")
      rw [h1]
      norm_num
    · intro j hj hji
      have hj0 : j = 0 := by omega
      subst hj0
      show catScore ⟨"Engine", ["engine"], []⟩ (lowerStr "Brake noise")
        < catScore ⟨"Brakes", ["brake"], []⟩ (lowerStr "Brake noise")
      rw [h0, h1]
      norm_num
    · intro j hj hij
      have hj2 : j < 2 := by simpa using hj
      have hj1 : j = 1 := by omega
      subst hj1
      exact le_refl _
  exact (categorize_winner_earliest_strict_max
    [⟨"Engine", ["engine"], []⟩, ⟨"Brakes", ["brake"], []⟩]
    "Brake noise" (by decide)).2 1 (by decide) hwin

/-- C2: whenever some category wins (score above 0), the returned confidence
is `min(winning_score/4 + match_density*0.5, 1)` computed from the winning
category's own match density (the source assigns `match_density` only inside
the winner-update branch, so after the loop it belongs to the winner, not to
the last-iterated category). -/
theorem categorize_confidence_from_winner (tax : Taxonomy) (text : String)
    (htext : text ≠ "") (i : Nat) (h : i < tax.length)
    (hwin : WinnerAt tax (lowerStr text) i h) :
    categorize_faults_text tax (some text) =
      (tax[i].name, (bestSubOf tax[i].subcategories (lowerStr text)).best_sub,
        min (catScore tax[i] (lowerStr text) / 4
              + matchDensityOf tax[i] (lowerStr text) * (1 / 2)) 1) := by
  have hscan := scan_eq_of_winner h hwin
  simp [categorize_faults_text, htext, hscan, mkWinState]

/-- Witness for C2: the first category wins although the second is iterated
after it, and the confidence is built from the first category's score 4 and
match density 1, giving `min(4/4 + 1*0.5, 1) = 1`. -/
theorem categorize_confidence_from_winner_witness :
    categorize_faults_text
      [⟨"Brakes", ["brake", "pad"], []⟩, ⟨"Engine", ["engine", "oil", "filter", "pump"], []⟩]
      (some "brake pad engine") = ("Brakes", none, 1) := by
  have hsB : catScore (⟨"Brakes", ["brake", "pad"], []⟩ : Category)
      (lowerStr "brake pad engine") = 4 := by
    rw [catScore_eq _ _ 2 0 2 (by decide) (by decide) (by decide)]
    norm_num
  have hsE : catScore (⟨"Engine", ["engine", "oil", "filter", "pump"], []⟩ : Category)
      (lowerStr "brake pad engine") = 3 / 2 := by
    rw [catScore_eq _ _ 1 0 4 (by decide) (by decide) (by decide)]
    norm_num
  have hdB : matchDensityOf (⟨"Brakes", ["brake", "pad"], []⟩ : Category)
      (lowerStr "brake pad engine") = 1 := by
    rw [matchDensityOf_eq _ _ 2 0 2 (by decide) (by decide) (by decide)]
    norm_num
  have hwin : WinnerAt
      [⟨"Brakes", ["brake", "pad"], []⟩, ⟨"Engine", ["engine", "oil", "filter", "pump"], []⟩]
      (lowerStr "brake pad engine") 0 (by decide) := by
    refine ⟨?_, ?_, ?_⟩
    · show (0 : ℚ) < catScore ⟨"Brakes", ["brake", "pad"], []⟩ (lowerStr "brake pad engine")
      rw [hsB]
      norm_num
    · intro j hj hji
      exact absurd hji (Nat.not_lt_zero j)
    · intro j hj hij
      have hj2 : j < 2 := by simpa using hj
      interval_cases j
      · exact le_refl _
      · show catScore ⟨"Engine", ["engine", "oil", "filter", "pump"], []⟩
            (lowerStr "brake pad engine")
          ≤ catScore ⟨"Brakes", ["brake", "pad"], []⟩ (lowerStr "brake pad engine")
        rw [hsE, hsB]
        norm_num
  have h := categorize_confidence_from_winner
    [⟨"Brakes", ["brake", "pad"], []⟩, ⟨"Engine", ["engine", "oil", "filter", "pump"], []⟩]
    "brake pad engine" (by decide) 0 (by decide) hwin
  rw [h]
  simp only [List.getElem_cons_zero]
  rw [hsB, hdB]
  simp [bestSubOf]

/-- C10 counterexample: the claim quantifies over every taxonomy, but a
taxonomy whose first category is literally named "Uncategorized" (one
keyword "x") classifies the text "x" to main category "Uncategorized" with
confidence 1, not 0, refuting "every Uncategorized result has confidence
exactly 0". -/
theorem uncategorized_confidence_counterexample :
    categorize_faults_text [⟨"Uncategorized", ["x"], []⟩] (some "x")
      = ("Uncategorized", none, 1) ∧ (1 : ℚ) ≠ 0 := by
  have hs : catScore (⟨"Uncategorized", ["x"], []⟩ : Category) (lowerStr "x") = 3 := by
    rw [catScore_eq _ _ 1 0 1 (by decide) (by decide) (by decide)]
    norm_num
  have hd : matchDensityOf (⟨"Uncategorized", ["x"], []⟩ : Category) (lowerStr "x") = 1 := by
    rw [matchDensityOf_eq _ _ 1 0 1 (by decide) (by decide) (by decide)]
    norm_num
  have hscan : scanCats [⟨"Uncategorized", ["x"], []⟩] (lowerStr "x")
      = mkWinState ⟨"Uncategorized", ["x"], []⟩ (lowerStr "x") := by
    unfold scanCats
    simp only [List.foldl_cons, List.foldl_nil]
    unfold stepCat
    rw [if_pos]
    show initState.highest_score < catScore ⟨"Uncategorized", ["x"], []⟩ (lowerStr "x")
    rw [hs]
    norm_num [initState]
  refine ⟨?_, by norm_num⟩
  have hres : categorize_faults_text [⟨"Uncategorized", ["x"], []⟩] (some "x")
      = ("Uncategorized", none,
          min (catScore ⟨"Uncategorized", ["x"], []⟩ (lowerStr "x") / 4
            + matchDensityOf ⟨"Uncategorized", ["x"], []⟩ (lowerStr "x") * (1 / 2)) 1) := by
    simp [categorize_faults_text, hscan, mkWinState, bestSubOf]
  rw [hres, hs, hd]
  norm_num [min_def]

/-- C10 amended: for every taxonomy none of whose categories is itself named
"Uncategorized", the result's main category is "Uncategorized" iff its
confidence is 0; an "Uncategorized" result carries no subcategory, and a
real category always has confidence strictly above 0. -/
theorem uncategorized_iff_zero_confidence (tax : Taxonomy) (desc : Option String)
    (hname : ∀ c ∈ tax, c.name ≠ "Uncategorized") :
    ((categorize_faults_text tax desc).1 = "Uncategorized" ↔
      (categorize_faults_text tax desc).2.2 = 0) ∧
    ((categorize_faults_text tax desc).1 = "Uncategorized" →
      (categorize_faults_text tax desc).2.1 = none) ∧
    ((categorize_faults_text tax desc).1 ≠ "Uncategorized" →
      0 < (categorize_faults_text tax desc).2.2) := by
  rcases desc with _ | s
  · exact ⟨by simp [categorize_faults_text],
      by simp [categorize_faults_text], by simp [categorize_faults_text]⟩
  by_cases hs : s = ""
  · subst hs
    exact ⟨by simp [categorize_faults_text],
      by simp [categorize_faults_text], by simp [categorize_faults_text]⟩
  rcases scan_spec (lowerStr s) tax with ⟨hscan, _⟩ | ⟨i, h, hscan, hwin⟩
  · have hres : categorize_faults_text tax (some s) = ("Uncategorized", none, 0) := by
      simp [categorize_faults_text, hs, hscan, initState]
    rw [hres]
    exact ⟨by simp, by simp, by simp⟩
  · have hres : categorize_faults_text tax (some s) =
        (tax[i].name, (bestSubOf tax[i].subcategories (lowerStr s)).best_sub,
          min (catScore tax[i] (lowerStr s) / 4
                + matchDensityOf tax[i] (lowerStr s) * (1 / 2)) 1) := by
      simp [categorize_faults_text, hs, hscan, mkWinState]
    have hne : tax[i].name ≠ "Uncategorized" := hname _ (List.getElem_mem h)
    have hconf : 0 < min (catScore tax[i] (lowerStr s) / 4
        + matchDensityOf tax[i] (lowerStr s) * (1 / 2)) 1 := by
      apply lt_min
      · have h1 : 0 < catScore tax[i] (lowerStr s) / 4 := by
          have := hwin.1
          positivity
        have h2 : 0 ≤ matchDensityOf tax[i] (lowerStr s) * (1 / 2) := by
          have := matchDensityOf_nonneg tax[i] (lowerStr s)
          positivity
        linarith
      · norm_num
    rw [hres]
    refine ⟨⟨fun hcontra => absurd hcontra hne,
              fun hcontra => absurd hcontra (ne_of_gt hconf)⟩,
            fun hcontra => absurd hcontra hne,
            fun _ => hconf⟩

/-- Witness for C10 amended: a one-category taxonomy named "Brakes" on the
text "brake". -/
theorem uncategorized_iff_zero_confidence_witness :
    ((categorize_faults_text [⟨"Brakes", ["brake"], []⟩] (some "brake")).1 = "Uncategorized" ↔
      (categorize_faults_text [⟨"Brakes", ["brake"], []⟩] (some "brake")).2.2 = 0) ∧
    ((categorize_faults_text [⟨"Brakes", ["brake"], []⟩] (some "brake")).1 = "Uncategorized" →
      (categorize_faults_text [⟨"Brakes", ["brake"], []⟩] (some "brake")).2.1 = none) ∧
    ((categorize_faults_text [⟨"Brakes", ["brake"], []⟩] (some "brake")).1 ≠ "Uncategorized" →
      0 < (categorize_faults_text [⟨"Brakes", ["brake"], []⟩] (some "brake")).2.2) :=
  uncategorized_iff_zero_confidence [⟨"Brakes", ["brake"], []⟩] (some "brake") (by decide)

/-- C9: for every taxonomy, classifying a non-string input (`None`) or the
empty string returns `("Uncategorized", null, 0)` without any failure
(the embedding is a total function, mirroring the early `return` of the
source before the scoring loop is entered). -/
theorem classify_degenerate_input (tax : Taxonomy) :
    categorize_faults_text tax none = ("Uncategorized", none, 0) ∧
    categorize_faults_text tax (some "") = ("Uncategorized", none, 0) := by
  constructor
  · rfl
  · simp [categorize_faults_text]

/-! ## Record store and statistics (`VehicleFault` dataframe helpers)

A classified row reduced to the fields the statistics read: `Vehicle Type`,
`FaultMainCategory`, `FaultSubCategory`; `none` models a NaN cell. -/

structure FaultRecord where
  vehicle_type : Option String
  fault_main : Option String
  fault_sub : Option String
deriving DecidableEq

/-- pandas `Series.unique()`: distinct values in first-occurrence order. -/
def distinctVals {α : Type} [DecidableEq α] (xs : List α) : List α :=
  xs.foldl (fun acc x => if x ∈ acc then acc else acc ++ [x]) []

theorem mem_distinct_foldl {α : Type} [DecidableEq α] (xs : List α) :
    ∀ (acc : List α) (a : α),
      (a ∈ xs.foldl (fun acc x => if x ∈ acc then acc else acc ++ [x]) acc
        ↔ a ∈ acc ∨ a ∈ xs) := by
  induction xs with
  | nil => intro acc a; simp
  | cons x rest ih =>
    intro acc a
    simp only [List.foldl_cons]
    by_cases hx : x ∈ acc
    · rw [if_pos hx, ih]
      constructor
      · rintro (h | h)
        · exact Or.inl h
        · exact Or.inr (List.mem_cons_of_mem _ h)
      · rintro (h | h)
        · exact Or.inl h
        · rcases List.mem_cons.mp h with rfl | h
          · exact Or.inl hx
          · exact Or.inr h
    · rw [if_neg hx, ih]
      simp only [List.mem_append, List.mem_singleton, List.mem_cons]
      tauto

theorem mem_distinctVals {α : Type} [DecidableEq α] (xs : List α) (a : α) :
    a ∈ distinctVals xs ↔ a ∈ xs := by
  unfold distinctVals
  rw [mem_distinct_foldl]
  simp

theorem nodup_distinct_foldl {α : Type} [DecidableEq α] (xs : List α) :
    ∀ (acc : List α), acc.Nodup →
      (xs.foldl (fun acc x => if x ∈ acc then acc else acc ++ [x]) acc).Nodup := by
  induction xs with
  | nil => intro acc h; simpa using h
  | cons x rest ih =>
    intro acc hacc
    simp only [List.foldl_cons]
    by_cases hx : x ∈ acc
    · rw [if_pos hx]
      exact ih acc hacc
    · rw [if_neg hx]
      refine ih (acc ++ [x]) ?_
      simp [List.nodup_append, hacc, hx]

theorem nodup_distinctVals {α : Type} [DecidableEq α] (xs : List α) :
    (distinctVals xs).Nodup :=
  nodup_distinct_foldl xs [] List.nodup_nil

theorem sum_counts_distinct {α : Type} [DecidableEq α] (xs : List α) :
    ((distinctVals xs).map (fun v => xs.count v)).sum = xs.length := by
  have hperm : List.Perm (distinctVals xs) xs.dedup :=
    (List.perm_ext_iff_of_nodup (nodup_distinctVals xs) (List.nodup_dedup xs)).mpr
      (fun a => by rw [mem_distinctVals, List.mem_dedup])
  calc ((distinctVals xs).map (fun v => xs.count v)).sum
      = (xs.dedup.map (fun v => xs.count v)).sum := (hperm.map _).sum_eq
    _ = xs.length := List.sum_map_count_dedup_eq_length xs

/-- Insertion step of the descending count sort: the new pair goes in front
of the first strictly smaller count, so equal counts keep their order. -/
def insertDesc (p : String × Nat) : List (String × Nat) → List (String × Nat)
  | [] => [p]
  | q :: rest => if q.2 < p.2 then p :: q :: rest else q :: insertDesc p rest

/-- Stable sort by count, descending (pandas sorts `value_counts` this way;
the tie order is not observable by any claim). -/
def sortCountDesc : List (String × Nat) → List (String × Nat)
  | [] => []
  | p :: rest => insertDesc p (sortCountDesc rest)

theorem insertDesc_perm (p : String × Nat) (l : List (String × Nat)) :
    List.Perm (insertDesc p l) (p :: l) := by
  induction l with
  | nil => exact List.Perm.refl _
  | cons q rest ih =>
    unfold insertDesc
    by_cases h : q.2 < p.2
    · rw [if_pos h]
    · rw [if_neg h]
      exact (ih.cons q).trans (List.Perm.swap p q rest)

theorem sortCountDesc_perm (l : List (String × Nat)) :
    List.Perm (sortCountDesc l) l := by
  induction l with
  | nil => exact List.Perm.refl _
  | cons p rest ih =>
    exact (insertDesc_perm p (sortCountDesc rest)).trans (ih.cons p)

theorem insertDesc_pairwise (p : String × Nat) (l : List (String × Nat))
    (h : l.Pairwise (fun a b => b.2 ≤ a.2)) :
    (insertDesc p l).Pairwise (fun a b => b.2 ≤ a.2) := by
  induction l with
  | nil => simp [insertDesc]
  | cons q rest ih =>
    rcases List.pairwise_cons.mp h with ⟨hq, hrest⟩
    unfold insertDesc
    by_cases hlt : q.2 < p.2
    · rw [if_pos hlt]
      refine List.pairwise_cons.mpr ⟨?_, h⟩
      intro b hb
      rcases List.mem_cons.mp hb with rfl | hb
      · exact le_of_lt hlt
      · exact le_trans (hq b hb) (le_of_lt hlt)
    · rw [if_neg hlt]
      refine List.pairwise_cons.mpr ⟨?_, ih hrest⟩
      intro b hb
      rcases List.mem_cons.mp ((insertDesc_perm p rest).mem_iff.mp hb) with rfl | hb
      · exact not_lt.mp hlt
      · exact hq b hb

theorem sortCountDesc_pairwise (l : List (String × Nat)) :
    (sortCountDesc l).Pairwise (fun a b => b.2 ≤ a.2) := by
  induction l with
  | nil => simp [sortCountDesc]
  | cons p rest ih => exact insertDesc_pairwise p (sortCountDesc rest) ih

/-- pandas `Series.value_counts()`: occurrence counts of the non-null values,
sorted by count descending. -/
def value_counts (xs : List (Option String)) : List (String × Nat) :=
  sortCountDesc ((distinctVals (xs.filterMap id)).map
    (fun v => (v, (xs.filterMap id).count v)))

theorem value_counts_sum (xs : List (Option String)) :
    ((value_counts xs).map (fun p => p.2)).sum = (xs.filterMap id).length := by
  unfold value_counts
  rw [((sortCountDesc_perm _).map (fun p => p.2)).sum_eq, List.map_map]
  exact sum_counts_distinct _

theorem value_counts_mem {xs : List (Option String)} {p : String × Nat}
    (h : p ∈ value_counts xs) :
    p.1 ∈ xs.filterMap id ∧ p.2 = (xs.filterMap id).count p.1 := by
  unfold value_counts at h
  rw [(sortCountDesc_perm _).mem_iff] at h
  rcases List.mem_map.mp h with ⟨v, hv, rfl⟩
  exact ⟨(mem_distinctVals _ _).mp hv, rfl⟩

theorem value_counts_sorted (xs : List (Option String)) :
    (value_counts xs).Pairwise (fun a b => b.2 ≤ a.2) :=
  sortCountDesc_pairwise _

theorem length_filterMap_eq_of_all_some {α β : Type} (f : α → Option β) (l : List α)
    (h : ∀ a ∈ l, (f a).isSome) : (l.filterMap f).length = l.length := by
  induction l with
  | nil => rfl
  | cons a rest ih =>
    rw [List.filterMap_cons]
    rcases hsome : f a with _ | b
    · exact absurd (h a (by simp)) (by simp [hsome])
    · simp only [List.length_cons]
      rw [ih (fun a ha => h a (by simp [ha]))]

/-- Count of records of the given vehicle type that carry a fault main
category (`(vehicle_types == vehicle_type) & (~main_cats.isna())`, summed). -/
def categorized_count (rs : List FaultRecord) (vt : String) : Nat :=
  rs.countP (fun r => decide (r.vehicle_type = some vt ∧ r.fault_main ≠ none))

/-- Count of all records of the given vehicle type. -/
def all_type_count (rs : List FaultRecord) (vt : String) : Nat :=
  rs.countP (fun r => decide (r.vehicle_type = some vt))

/-- The `vehicle_types` loop of `VehicleFault.get_fault_statistics`: iterate
the distinct vehicle types (skipping NaN), count the categorized records of
each type, and fall back to all records of the type when that count is 0. -/
def get_fault_statistics_vehicle_types (rs : List FaultRecord) :
    List (String × Nat) :=
  (distinctVals (rs.map (fun r => r.vehicle_type))).filterMap (fun v =>
    match v with
    | none => none
    | some vt =>
      some (vt, if categorized_count rs vt = 0 then all_type_count rs vt
                else categorized_count rs vt))

/-- C4: every vehicle type present in the data appears in the vehicle-type
statistics, mapped to the count of its records that carry a fault main
category, or — when that count is zero — to the count of all its records,
so no vehicle type is silently omitted. -/
theorem vehicle_type_counts_complete (rs : List FaultRecord) (vt : String)
    (hpresent : ∃ r ∈ rs, r.vehicle_type = some vt) :
    (vt, if categorized_count rs vt = 0 then all_type_count rs vt
         else categorized_count rs vt) ∈ get_fault_statistics_vehicle_types rs := by
  rcases hpresent with ⟨r, hr, hvt⟩
  have hmem : (some vt) ∈ distinctVals (rs.map (fun r => r.vehicle_type)) := by
    rw [mem_distinctVals]
    exact List.mem_map.mpr ⟨r, hr, hvt⟩
  exact List.mem_filterMap.mpr ⟨some vt, hmem, rfl⟩

/-- Witness for C4: one record of type "14ft" with no fault category; the
categorized count is 0, so the fallback reports all 1 records of the type. -/
theorem vehicle_type_counts_complete_witness :
    ("14ft", 1) ∈ get_fault_statistics_vehicle_types
      [⟨some "14ft", none, none⟩] := by
  have h := vehicle_type_counts_complete [⟨some "14ft", none, none⟩] "14ft"
    ⟨⟨some "14ft", none, none⟩, by simp, rfl⟩
  have heval : (if categorized_count [(⟨some "14ft", none, none⟩ : FaultRecord)] "14ft" = 0
      then all_type_count [(⟨some "14ft", none, none⟩ : FaultRecord)] "14ft"
      else categorized_count [(⟨some "14ft", none, none⟩ : FaultRecord)] "14ft") = 1 := by
    decide
  exact heval ▸ h

/-- The per-category percentage lines of `PandasChat.handle_category_query`
for the main-category branch: `(count / total) * 100` over the
main-category `value_counts` (NaN already absent from `value_counts`),
skipping empty-string categories. -/
def handle_category_query_percentages (rs : List FaultRecord) :
    List (String × ℚ) :=
  (value_counts (rs.map (fun r => r.fault_main))).filterMap (fun p =>
    if p.1 = "" then none
    else some (p.1, ((p.2 : ℚ) / (rs.length : ℚ)) * 100))

theorem filterMap_pct_eq_map {g : String × Nat → String × ℚ}
    (l : List (String × Nat)) (h : ∀ p ∈ l, p.1 ≠ "") :
    l.filterMap (fun p => if p.1 = "" then none else some (g p)) = l.map g := by
  induction l with
  | nil => rfl
  | cons p rest ih =>
    rw [List.filterMap_cons, List.map_cons]
    rw [if_neg (h p (by simp))]
    rw [ih (fun q hq => h q (by simp [hq]))]

/-- C5: over a non-empty, fully classified record set (every record carries a
non-empty main category), the main-category counts sum to the number of
records, and the reported percentages sum to exactly 100 (the source sums
floats; over exact rationals the sum is exact). -/
theorem statistics_counts_and_percentages (rs : List FaultRecord)
    (hne : rs ≠ [])
    (hclass : ∀ r ∈ rs, ∃ s, r.fault_main = some s ∧ s ≠ "") :
    ((value_counts (rs.map (fun r => r.fault_main))).map (fun p => p.2)).sum
      = rs.length ∧
    ((handle_category_query_percentages rs).map (fun p => p.2)).sum = 100 := by
  have hsum : ((value_counts (rs.map (fun r => r.fault_main))).map (fun p => p.2)).sum
      = rs.length := by
    rw [value_counts_sum]
    rw [length_filterMap_eq_of_all_some id (rs.map (fun r => r.fault_main)) ?_]
    · exact List.length_map rs _
    · intro o ho
      rcases List.mem_map.mp ho with ⟨r, hr, rfl⟩
      rcases hclass r hr with ⟨s, hs, _⟩
      simp [hs]
  refine ⟨hsum, ?_⟩
  have hkeys : ∀ p ∈ value_counts (rs.map (fun r => r.fault_main)), p.1 ≠ "" := by
    intro p hp
    rcases value_counts_mem hp with ⟨hmem, _⟩
    rcases List.mem_filterMap.mp hmem with ⟨o, ho, hid⟩
    rcases List.mem_map.mp ho with ⟨r, hr, rfl⟩
    rcases hclass r hr with ⟨s, hs, hsne⟩
    have : s = p.1 := by
      rw [hs] at hid
      simpa using hid
    exact this ▸ hsne
  unfold handle_category_query_percentages
  rw [filterMap_pct_eq_map _ hkeys, List.map_map]
  have hT : ((rs.length : ℚ)) ≠ 0 := by
    have : 0 < rs.length := List.length_pos.mpr hne
    exact_mod_cast Nat.pos_iff_ne_zero.mp this
  have hcongr : ((value_counts (rs.map (fun r => r.fault_main))).map
        ((fun p => p.2) ∘ (fun p => (p.1, ((p.2 : ℚ) / (rs.length : ℚ)) * 100))))
      = ((value_counts (rs.map (fun r => r.fault_main))).map
        (fun p => ((p.2 : ℚ)) * (100 / (rs.length : ℚ)))) := by
    apply List.map_congr_left
    intro p _
    show ((p.2 : ℚ) / (rs.length : ℚ)) * 100 = (p.2 : ℚ) * (100 / (rs.length : ℚ))
    ring
  rw [hcongr, List.sum_map_mul_right]
  have hsplit : ((value_counts (rs.map (fun r => r.fault_main))).map
        (fun p => ((p.2 : ℕ) : ℚ)))
      = ((value_counts (rs.map (fun r => r.fault_main))).map
        (fun p => p.2)).map (fun n : ℕ => (n : ℚ)) := by
    rw [List.map_map]
    rfl
  have hq : ((value_counts (rs.map (fun r => r.fault_main))).map
        (fun p => ((p.2 : ℕ) : ℚ))).sum = ((rs.length : ℕ) : ℚ) := by
    rw [hsplit, ← Nat.cast_list_sum, hsum]
  rw [hq, mul_comm, div_mul_cancel₀ _ hT]

/-- Witness for C5: two classified records, counts 1 + 1 = 2 and
percentages 50 + 50 = 100. -/
theorem statistics_counts_and_percentages_witness :
    ((value_counts (([⟨some "14ft", some "Brakes", some "Pads"⟩,
        ⟨some "14ft", some "Engine", none⟩] : List FaultRecord).map
        (fun r => r.fault_main))).map (fun p => p.2)).sum = 2 ∧
    ((handle_category_query_percentages
        [⟨some "14ft", some "Brakes", some "Pads"⟩,
         ⟨some "14ft", some "Engine", none⟩]).map (fun p => p.2)).sum = 100 :=
  statistics_counts_and_percentages
    [⟨some "14ft", some "Brakes", some "Pads"⟩, ⟨some "14ft", some "Engine", none⟩]
    (by decide)
    (by
      intro r hr
      rcases List.mem_cons.mp hr with rfl | hr
      · exact ⟨"Brakes", rfl, by decide⟩
      · rcases List.mem_cons.mp hr with rfl | hr
        · exact ⟨"Engine", rfl, by decide⟩
        · cases hr)

/-- Python `round(x, 2)`, modelled with round-to-nearest on ℚ (Python uses
banker's rounding on floats; the two differ only at exact .005 midpoints and
no claim depends on that boundary). -/
def round2 (q : ℚ) : ℚ := ((round (q * 100) : ℤ) : ℚ) / 100

/-- One entry of `get_top_faults(..., by_subcategory=True)`. -/
structure TopSubEntry where
  subcategory : String
  main_category : Option String
  count : Nat
  percentage : ℚ
deriving DecidableEq

/-- One line of the per-category subcategory breakdown. -/
structure SubBreakdown where
  name : String
  count : Nat
  percentage : ℚ
deriving DecidableEq

/-- One entry of `get_top_faults(..., by_subcategory=False)`. -/
structure TopCatEntry where
  category : String
  count : Nat
  percentage : ℚ
  subcategories : List SubBreakdown
deriving DecidableEq

/-- Return shape of `get_top_faults`: the dict with `total_faults` and one of
`top_categories` / `top_subcategories` (the absent key is the empty list). -/
structure TopFaultsResult where
  total_faults : Nat
  top_categories : List TopCatEntry
  top_subcategories : List TopSubEntry
deriving DecidableEq

/-- `self._df[sub_cats == subcat]['FaultMainCategory'].iloc[0]`: the main
category of the first record carrying the subcategory (the call site
guarantees the filter is non-empty; `none` covers the unreachable empty
case and a NaN cell alike). -/
def main_cat_of_first (rs : List FaultRecord) (sc : String) : Option String :=
  match (rs.filter (fun r => decide (r.fault_sub = some sc))).head? with
  | some r => r.fault_main
  | none => none

/-- `VehicleFault.get_top_faults(limit, by_subcategory)`. -/
def get_top_faults (rs : List FaultRecord) (limit : Nat) (by_subcategory : Bool) :
    TopFaultsResult :=
  if by_subcategory then
    let counts := value_counts (rs.map (fun r => r.fault_sub))
    { total_faults := rs.length
      top_categories := []
      top_subcategories := (counts.take limit).map (fun p =>
        { subcategory := p.1
          main_category := main_cat_of_first rs p.1
          count := p.2
          percentage := round2 (((p.2 : ℚ) / (rs.length : ℚ)) * 100) }) }
  else
    let counts := value_counts (rs.map (fun r => r.fault_main))
    { total_faults := rs.length
      top_categories := (counts.take limit).map (fun p =>
        { category := p.1
          count := p.2
          percentage := round2 (((p.2 : ℚ) / (rs.length : ℚ)) * 100)
          subcategories :=
            (value_counts ((rs.filter
                (fun r => decide (r.fault_main = some p.1))).map
                (fun r => r.fault_sub))).map (fun q =>
              { name := q.1
                count := q.2
                percentage := round2 (((q.2 : ℚ) / (p.2 : ℚ)) * 100) }) })
      top_subcategories := [] }

theorem pct_le_100 {c n : ℕ} (h : c ≤ n) :
    ((c : ℚ) / (n : ℚ)) * 100 ≤ 100 := by
  rcases Nat.eq_zero_or_pos n with hn | hn
  · subst hn
    have hc : c = 0 := Nat.le_zero.mp h
    subst hc
    norm_num
  · have hn' : (0 : ℚ) < n := by exact_mod_cast hn
    have hdiv : (c : ℚ) / (n : ℚ) ≤ 1 := by
      rw [div_le_one hn']
      exact_mod_cast h
    linarith

theorem round2_le_of_le {q : ℚ} (h : q ≤ 100) : round2 q ≤ 100 := by
  unfold round2
  rw [div_le_iff₀ (by norm_num : (0 : ℚ) < 100)]
  have hr : round (q * 100) ≤ 10000 := by
    rw [round_eq]
    have hfloor : (⌊(10000 : ℚ) + 1 / 2⌋ : ℤ) = 10000 := by
      rw [Int.floor_eq_iff]
      norm_num
    calc ⌊q * 100 + 1 / 2⌋ ≤ ⌊(10000 : ℚ) + 1 / 2⌋ :=
          Int.floor_le_floor (by linarith)
      _ = 10000 := hfloor
  calc ((round (q * 100) : ℤ) : ℚ) ≤ ((10000 : ℤ) : ℚ) := by exact_mod_cast hr
    _ = 100 * 100 := by norm_num

theorem head?_mem_of_eq {α : Type} {l : List α} {a : α} (h : l.head? = some a) :
    a ∈ l := by
  cases l with
  | nil => cases h
  | cons x xs =>
    rw [List.head?_cons] at h
    injection h with h
    exact h ▸ List.mem_cons_self x xs

theorem value_counts_count_le {xs : List (Option String)} {p : String × Nat}
    (h : p ∈ value_counts xs) : p.2 ≤ xs.length := by
  rcases value_counts_mem h with ⟨_, hcount⟩
  calc p.2 = (xs.filterMap id).count p.1 := hcount
    _ ≤ (xs.filterMap id).length := List.count_le_length _ _
    _ ≤ xs.length := List.length_filterMap_le _ _

/-- C6: `get_top_faults` returns at most `limit` entries (in either mode),
ordered by non-increasing count; every reported percentage is at most 100;
and every subcategory entry is annotated with the main category of a record
that actually carries that subcategory (its parent). -/
theorem get_top_faults_spec (rs : List FaultRecord) (limit : Nat) (by_sub : Bool) :
    (get_top_faults rs limit by_sub).top_subcategories.length ≤ limit ∧
    (get_top_faults rs limit by_sub).top_categories.length ≤ limit ∧
    List.Pairwise (fun a b => b.count ≤ a.count)
      (get_top_faults rs limit by_sub).top_subcategories ∧
    List.Pairwise (fun a b => b.count ≤ a.count)
      (get_top_faults rs limit by_sub).top_categories ∧
    (∀ e ∈ (get_top_faults rs limit by_sub).top_subcategories,
      e.percentage ≤ 100) ∧
    (∀ e ∈ (get_top_faults rs limit by_sub).top_categories,
      e.percentage ≤ 100) ∧
    (∀ e ∈ (get_top_faults rs limit by_sub).top_subcategories,
      ∃ r ∈ rs, r.fault_sub = some e.subcategory ∧ r.fault_main = e.main_category) := by
  cases by_sub with
  | false =>
    simp only [get_top_faults, if_neg (by simp : ¬(false = true))]
    refine ⟨by simp, ?_, by simp, ?_, by simp, ?_, by simp⟩
    · rw [List.length_map, List.length_take]
      exact min_le_left _ _
    · rw [List.pairwise_map]
      exact ((value_counts_sorted _).sublist (List.take_sublist _ _)).imp
        (fun hab => hab)
    · intro e he
      rcases List.mem_map.mp he with ⟨p, hp, rfl⟩
      have hpmem : p ∈ value_counts (rs.map (fun r => r.fault_main)) :=
        List.mem_of_mem_take hp
      have hle : p.2 ≤ rs.length := by
        have := value_counts_count_le hpmem
        simpa using this
      exact round2_le_of_le (pct_le_100 hle)
  | true =>
    simp only [get_top_faults, if_true]
    refine ⟨?_, by simp, ?_, by simp, ?_, by simp, ?_⟩
    · rw [List.length_map]
      rw [List.length_take]
      exact min_le_left _ _
    · rw [List.pairwise_map]
      exact ((value_counts_sorted _).sublist (List.take_sublist _ _)).imp
        (fun hab => hab)
    · intro e he
      rcases List.mem_map.mp he with ⟨p, hp, rfl⟩
      have hpmem : p ∈ value_counts (rs.map (fun r => r.fault_sub)) :=
        List.mem_of_mem_take hp
      have hle : p.2 ≤ rs.length := by
        have := value_counts_count_le hpmem
        simpa using this
      exact round2_le_of_le (pct_le_100 hle)
    · intro e he
      rcases List.mem_map.mp he with ⟨p, hp, rfl⟩
      have hpmem : p ∈ value_counts (rs.map (fun r => r.fault_sub)) :=
        List.mem_of_mem_take hp
      rcases value_counts_mem hpmem with ⟨hmem, _⟩
      rcases List.mem_filterMap.mp hmem with ⟨o, ho, hid⟩
      rcases List.mem_map.mp ho with ⟨r, hr, rfl⟩
      have hrsub : r.fault_sub = some p.1 := by simpa using hid
      have hfilter : r ∈ rs.filter (fun r => decide (r.fault_sub = some p.1)) :=
        List.mem_filter.mpr ⟨hr, by simp [hrsub]⟩
      rcases hhead : (rs.filter (fun r => decide (r.fault_sub = some p.1))).head? with _ | r0
      · rw [List.head?_eq_none_iff] at hhead
        rw [hhead] at hfilter
        cases hfilter
      · have hr0mem : r0 ∈ rs.filter (fun r => decide (r.fault_sub = some p.1)) :=
          head?_mem_of_eq hhead
        rcases List.mem_filter.mp hr0mem with ⟨hr0rs, hr0sub⟩
        refine ⟨r0, hr0rs, by simpa using hr0sub, ?_⟩
        show r0.fault_main = main_cat_of_first rs p.1
        unfold main_cat_of_first
        rw [hhead]

/-! ## Query intent helpers (`PandasChat`) -/

/-- Regex `\s` over the ASCII whitespace the source can meet. -/
def isSpaceChar (c : Char) : Bool :=
  c = ' ' || c = '\t' || c = '\n' || c = '\r' || c = Char.ofNat 11 || c = Char.ofNat 12

/-- Numeric value of a digit run (the capture group `(\d+)` fed to `int`). -/
def digitsVal (ds : List Char) : Nat :=
  ds.foldl (fun n c => n * 10 + (c.toNat - '0'.toNat)) 0

/-- Match of `top\s+(\d+)` anchored at the current position: the literal
"top", at least one whitespace, then a greedy digit run. -/
def matchTopAt : List Char → Option Nat
  | 't' :: 'o' :: 'p' :: rest =>
    if (rest.takeWhile isSpaceChar).isEmpty then none
    else
      let ds := (rest.dropWhile isSpaceChar).takeWhile Char.isDigit
      if ds.isEmpty then none else some (digitsVal ds)
  | _ => none

/-- `re.search(r'top\s+(\d+)', q)`: the leftmost position where the pattern
matches wins. -/
def findTopNum : List Char → Option Nat
  | [] => none
  | c :: rest =>
    match matchTopAt (c :: rest) with
    | some n => some n
    | none => findTopNum rest

/-- The `number_words` table, in dict insertion order. -/
def number_words : List (String × Nat) :=
  [("one", 1), ("two", 2), ("three", 3), ("four", 4), ("five", 5),
   ("six", 6), ("seven", 7), ("eight", 8), ("nine", 9), ("ten", 10)]

/-- `PandasChat._extract_top_n(query)`: regex number first, else the first
number word `w` (in table order) with `"top w"` a substring, else 3. A total
function — the `except` of the source is unreachable. -/
def extract_top_n (query : String) : Nat :=
  match findTopNum (lowerStr query).data with
  | some n => n
  | none =>
    match number_words.find? (fun p => containsStr ("top " ++ p.1) (lowerStr query)) with
    | some p => p.2
    | none => 3

/-- C7: top-N extraction returns the number of the first (leftmost)
`top\s+(\d+)` match; otherwise the value of the first number word `w`
(one..ten, in table order) such that "top w" occurs in the query; otherwise
the default 3. In particular "top 5" gives 5, "top five" gives 5, a query
with no number gives 3, and the leftmost digit match wins. Extraction is a
total function, so it never raises. -/
theorem extract_top_n_spec :
    extract_top_n "top 5" = 5 ∧
    extract_top_n "top five" = 5 ∧
    extract_top_n "show the most common faults" = 3 ∧
    extract_top_n "top 12 or top 4" = 12 ∧
    (∀ q n, findTopNum (lowerStr q).data = some n → extract_top_n q = n) ∧
    (∀ q p, findTopNum (lowerStr q).data = none →
      number_words.find? (fun p => containsStr ("top " ++ p.1) (lowerStr q)) = some p →
      extract_top_n q = p.2) ∧
    (∀ q, findTopNum (lowerStr q).data = none →
      (∀ p ∈ number_words, ¬ containsStr ("top " ++ p.1) (lowerStr q)) →
      extract_top_n q = 3) := by
  refine ⟨by decide, by decide, by decide, by decide, ?_, ?_, ?_⟩
  · intro q n h
    simp [extract_top_n, h]
  · intro q p hnone hfind
    simp [extract_top_n, hnone, hfind]
  · intro q hnone hwords
    have hfind : number_words.find?
        (fun p => containsStr ("top " ++ p.1) (lowerStr q)) = none := by
      rw [List.find?_eq_none]
      intro p hp
      simpa using hwords p hp
    simp [extract_top_n, hnone, hfind]

/-- Witness for C7: "top 7 faults" matches the regex with value 7. -/
theorem extract_top_n_spec_witness : extract_top_n "top 7 faults" = 7 :=
  extract_top_n_spec.2.2.2.2.1 "top 7 faults" 7 (by decide)

/-! ## Query preprocessing (`QueryPreProcessor._standardize_entities`)

The fixed part of `_build_entity_mappings` (the taxonomy-derived part is
empty when `fault_categories.yaml` is absent, as it is from the repository
tree). Every variant is one word of word-characters, so the regex
`\b(v1|...|vn)\b` of `_standardize_entities` matches exactly the maximal
word-character runs equal to a variant, which is how the substitution is
modelled. -/

/-- Python regex `\w` (ASCII): letters, digits, underscore. -/
def wordChar (c : Char) : Bool :=
  c.isAlphanum || c = '_'

/-- The fixed synonym table, in dict insertion order: standard term →
variant words. -/
def entity_mappings : List (String × List String) :=
  [("vehicle", ["car", "truck", "van", "vehicle"]),
   ("fault", ["issue", "problem", "breakdown", "failure"]),
   ("maintenance", ["repair", "service", "fix", "maintenance"])]

/-- Emit an accumulated word run: a run equal to some variant becomes the
standard term, any other run is kept. -/
def emitRun (vs : List String) (std : List Char) (run : List Char) : List Char :=
  if run.isEmpty then []
  else if vs.any (fun v => decide (v.data = run)) then std else run

/-- `re.sub(r'\b(v1|...|vn)\b', std, ·)` on the character list: word runs are
accumulated and emitted through `emitRun`, other characters pass through. -/
def subWBAux (vs : List String) (std : List Char) : List Char → List Char → List Char
  | run, [] => emitRun vs std run
  | run, c :: rest =>
    if wordChar c then subWBAux vs std (run ++ [c]) rest
    else emitRun vs std run ++ c :: subWBAux vs std [] rest

/-- One `re.sub` call of `_standardize_entities`. -/
def subWordBound (vs : List String) (std : String) (s : String) : String :=
  String.mk (subWBAux vs std.data [] s.data)

/-- `QueryPreProcessor._standardize_entities(query)` over the fixed table:
the substitutions are applied mapping by mapping, in table order. -/
def standardize_entities (q : String) : String :=
  entity_mappings.foldl (fun s m => subWordBound m.2 m.1 s) q

/-- Maximal word-character runs of a string (the token stream the word
boundaries of the regex delimit). -/
def wordTokensAux : List Char → List Char → List String
  | run, [] => if run.isEmpty then [] else [String.mk run]
  | run, c :: rest =>
    if wordChar c then wordTokensAux (run ++ [c]) rest
    else (if run.isEmpty then [] else [String.mk run]) ++ wordTokensAux [] rest

def wordTokens (s : String) : List String :=
  wordTokensAux [] s.data

/-- The per-token effect of the three substitutions applied in table order. -/
def replaceToken (t : String) : String :=
  entity_mappings.foldl (fun t m => if t ∈ m.2 then m.1 else t) t

theorem wordTokensAux_nil (run : List Char) :
    wordTokensAux run [] = if run.isEmpty then [] else [String.mk run] := rfl

theorem wordTokensAux_cons (run : List Char) (c : Char) (rest : List Char) :
    wordTokensAux run (c :: rest)
      = if wordChar c then wordTokensAux (run ++ [c]) rest
        else (if run.isEmpty then [] else [String.mk run]) ++ wordTokensAux [] rest := rfl

theorem subWBAux_nil (vs : List String) (std run : List Char) :
    subWBAux vs std run [] = emitRun vs std run := rfl

theorem subWBAux_cons (vs : List String) (std run : List Char) (c : Char)
    (rest : List Char) :
    subWBAux vs std run (c :: rest)
      = if wordChar c then subWBAux vs std (run ++ [c]) rest
        else emitRun vs std run ++ c :: subWBAux vs std [] rest := rfl

theorem wordTokensAux_all_word (w : List Char) :
    ∀ run, (∀ c ∈ w, wordChar c) →
      wordTokensAux run w
        = if (run ++ w).isEmpty then [] else [String.mk (run ++ w)] := by
  induction w with
  | nil => intro run _; rw [wordTokensAux_nil]; simp
  | cons c cs ih =>
    intro run hw
    rw [wordTokensAux_cons, if_pos (hw c (by simp)),
        ih (run ++ [c]) (fun x hx => hw x (by simp [hx]))]
    simp

theorem wordTokensAux_word_break (c : Char) (tail : List Char)
    (hc : wordChar c = false) :
    ∀ (w run : List Char), (∀ x ∈ w, wordChar x) →
      wordTokensAux run (w ++ c :: tail)
        = (if (run ++ w).isEmpty then [] else [String.mk (run ++ w)])
            ++ wordTokensAux [] tail := by
  intro w
  induction w with
  | nil =>
    intro run _
    rw [List.nil_append, wordTokensAux_cons, if_neg (by simp [hc])]
    simp
  | cons x xs ih =>
    intro run hw
    rw [List.cons_append, wordTokensAux_cons, if_pos (hw x (by simp)),
        ih (run ++ [x]) (fun y hy => hw y (by simp [hy]))]
    simp

theorem emitRun_all_word {vs : List String} {std : List Char} (run : List Char)
    (hstd : ∀ c ∈ std, wordChar c) (hrun : ∀ c ∈ run, wordChar c) :
    ∀ c ∈ emitRun vs std run, wordChar c := by
  unfold emitRun
  by_cases he : run.isEmpty
  · rw [if_pos he]; intro c hc; cases hc
  · rw [if_neg he]
    by_cases hv : vs.any (fun v => decide (v.data = run))
    · rw [if_pos hv]; exact hstd
    · rw [if_neg hv]; exact hrun

theorem mk_mem_iff_any (vs : List String) (run : List Char) :
    String.mk run ∈ vs ↔ vs.any (fun v => decide (v.data = run)) := by
  rw [List.any_eq_true]
  constructor
  · intro h
    exact ⟨String.mk run, h, by simp⟩
  · rintro ⟨v, hv, hveq⟩
    have hd : v.data = run := of_decide_eq_true hveq
    have : String.mk run = v := by
      cases v
      cases hd
      rfl
    exact this ▸ hv

theorem emit_if_eq (vs : List String) (std : List Char)
    (hstd : std ≠ [] ∧ ∀ c ∈ std, wordChar c) (run : List Char) :
    (if (emitRun vs std run).isEmpty then [] else [String.mk (emitRun vs std run)])
      = (if run.isEmpty then [] else [String.mk run]).map
          (fun t => if t ∈ vs then String.mk std else t) := by
  unfold emitRun
  by_cases he : run.isEmpty
  · rw [if_pos he, if_pos he]
    simp
  · have hstdE : std.isEmpty = false := by
      cases hs : std
      · exact absurd hs hstd.1
      · rfl
    rw [if_neg he, if_neg he]
    by_cases hv : vs.any (fun v => decide (v.data = run))
    · rw [if_pos hv]
      have hmem : String.mk run ∈ vs := (mk_mem_iff_any vs run).mpr hv
      simp [hstdE, hmem]
    · rw [if_neg hv]
      have hmem : String.mk run ∉ vs := fun h =>
        absurd ((mk_mem_iff_any vs run).mp h) (by simpa using hv)
      simp [he, hmem]

theorem wordTokensAux_emitRun (vs : List String) (std : List Char)
    (hstd : std ≠ [] ∧ ∀ c ∈ std, wordChar c) (run : List Char)
    (hrun : ∀ c ∈ run, wordChar c) :
    wordTokensAux [] (emitRun vs std run)
      = (if run.isEmpty then [] else [String.mk run]).map
          (fun t => if t ∈ vs then String.mk std else t) := by
  rw [wordTokensAux_all_word (emitRun vs std run) []
        (emitRun_all_word run hstd.2 hrun)]
  simpa using emit_if_eq vs std hstd run

theorem wordTokens_subWBAux (vs : List String) (std : List Char)
    (hstd : std ≠ [] ∧ ∀ c ∈ std, wordChar c) :
    ∀ (cs run : List Char), (∀ c ∈ run, wordChar c) →
      wordTokensAux [] (subWBAux vs std run cs)
        = (wordTokensAux run cs).map
            (fun t => if t ∈ vs then String.mk std else t) := by
  intro cs
  induction cs with
  | nil =>
    intro run hrun
    rw [subWBAux_nil, wordTokensAux_emitRun vs std hstd run hrun, wordTokensAux_nil]
  | cons c rest ih =>
    intro run hrun
    rw [subWBAux_cons]
    by_cases hc : wordChar c
    · rw [if_pos hc,
          ih (run ++ [c]) (fun x hx => by
            rcases List.mem_append.mp hx with hx | hx
            · exact hrun x hx
            · have : x = c := by simpa using hx
              exact this ▸ hc),
          wordTokensAux_cons, if_pos hc]
    · rw [if_neg hc,
          wordTokensAux_word_break c (subWBAux vs std [] rest)
            (by simpa using hc) (emitRun vs std run) []
            (emitRun_all_word run hstd.2 hrun),
          ih [] (by intro x hx; cases hx),
          wordTokensAux_cons, if_neg hc, List.map_append, List.nil_append]
      congr 1
      exact emit_if_eq vs std hstd run

theorem wordTokens_subWordBound (vs : List String) (std : String)
    (hstd : std.data ≠ [] ∧ ∀ c ∈ std.data, wordChar c) (s : String) :
    wordTokens (subWordBound vs std s)
      = (wordTokens s).map (fun t => if t ∈ vs then std else t) := by
  unfold wordTokens subWordBound
  have h := wordTokens_subWBAux vs std.data hstd s.data [] (by intro x hx; cases hx)
  simpa using h

/-- C8 counterexample: the claim's example "problems" → "faults" fails. The
variant table holds only the singular "problem", and `\b...\b` does not match
inside the plural, so "problems" passes through unchanged; moreover the
singular is replaced by the key "fault", not "faults". -/
theorem standardize_entities_counterexample :
    standardize_entities "problems" = "problems" ∧
    standardize_entities "problems" ≠ "faults" ∧
    standardize_entities "problem" = "fault" := by
  decide

/-- C8 amended: entity standardization is word-boundary safe — the output's
word-token stream is exactly the input's mapped token by token, so a variant
inside a longer word is never replaced; the singular "problem" maps to
"fault", while the plural "problems" is not in the variant table and is left
unchanged. -/
theorem standardize_entities_word_boundary (q : String) :
    wordTokens (standardize_entities q) = (wordTokens q).map replaceToken ∧
    replaceToken "problem" = "fault" ∧
    replaceToken "problems" = "problems" ∧
    standardize_entities "the problems look problematic" =
      "the problems look problematic" ∧
    standardize_entities "a problem was found" = "a fault was found" := by
  refine ⟨?_, by decide, by decide, by decide, by decide⟩
  simp only [standardize_entities, entity_mappings, List.foldl_cons, List.foldl_nil]
  rw [wordTokens_subWordBound ["repair", "service", "fix", "maintenance"]
        "maintenance" (by decide),
      wordTokens_subWordBound ["issue", "problem", "breakdown", "failure"]
        "fault" (by decide),
      wordTokens_subWordBound ["car", "truck", "van", "vehicle"]
        "vehicle" (by decide),
      List.map_map, List.map_map]
  apply List.map_congr_left
  intro t _
  rfl

/-! ## Construction (`VehicleFault.__init__` / `categorize_faults`) -/

/-- The row fields `categorize_faults` reads (plus the required column flag,
handled separately): `None` models a NaN cell (`fillna('')`). -/
structure Row where
  wo_no : Option String
  nature_of_complaint : Option String
  job_description : Option String
deriving DecidableEq

/-- `combined_desc = job_desc.fillna('') + ' ' + complaint.fillna('')`. -/
def combined_desc (r : Row) : String :=
  (r.job_description.getD "") ++ " " ++ (r.nature_of_complaint.getD "")

/-- `VehicleFault.categorize_faults`: the taxonomy load result is the
parameter (`none` = missing file or malformed YAML). On load failure the
source prints a warning and returns `None`; on success it classifies every
row's combined description (an absent best subcategory becomes `''`). -/
def categorize_faults_batch (cfg : Option Taxonomy) (rows : List Row) :
    Option (List (String × String × ℚ)) :=
  match cfg with
  | none => none
  | some tax => some (rows.map (fun r =>
      let res := categorize_faults_text tax (some (combined_desc r))
      (res.1, (res.2.1).getD "", res.2.2)))

/-- Outcome of `__init__`: the two classification columns, unset (`none`)
when categorization returned `None`. -/
structure VFInit where
  fault_main : Option (List String)
  fault_sub : Option (List String)
deriving DecidableEq

/-- `VehicleFault.__init__(data, validate_columns=True)` reduced to the
decisions the claim is about: `_validate_columns` raises `ValueError` only
for a non-empty frame missing the required `'WO No'` column; the
categorization call is wrapped in `try/except` and a `None` result merely
skips the column assignment — no taxonomy-related error escapes. -/
def vehicle_fault_init (cfg : Option Taxonomy) (rows : List Row)
    (has_wo_column : Bool) : Except String VFInit :=
  if rows.isEmpty = false ∧ has_wo_column = false then
    Except.error "Missing required columns"
  else
    match categorize_faults_batch cfg rows with
    | some res =>
      Except.ok ⟨some (res.map (fun x => x.1)), some (res.map (fun x => x.2.1))⟩
    | none => Except.ok ⟨none, none⟩

/-- C3 counterexample: with the taxonomy config missing (or malformed),
constructing the classifier over a valid row succeeds — it returns a
degraded object with no categories assigned instead of raising; no
`ConfigurationError` exists anywhere in the code. -/
theorem taxonomy_failure_not_fatal_counterexample :
    vehicle_fault_init none
      [⟨some "WO1", some "engine overheating", some "replace radiator"⟩] true
      = Except.ok ⟨none, none⟩ := rfl

/-- C3 amended: when the taxonomy configuration is missing or malformed,
construction does not fail: `categorize_faults` catches the load error,
logs a warning and returns `None`, and the constructor continues with every
record left unclassified (degraded results, not a fatal error). -/
theorem taxonomy_failure_degrades (rows : List Row) :
    vehicle_fault_init none rows true = Except.ok ⟨none, none⟩ := by
  unfold vehicle_fault_init
  rw [if_neg]
  · rfl
  · rintro ⟨-, h⟩
    exact Bool.noConfusion h

end GBL
